import Mathlib

/-!
Verification of the memoization rewrite handler (`src/memoize/handler.hpp`).

The handler receives one matched C++ function definition from clang's AST
matcher and submits three text edits to a `clang::Rewriter`:

1. `renameOriginalFunction` replaces the text from the start of the
   definition through the end of the name token with
   `<returnType> <name>__original__`;
2. `run` inserts the memoized wrapper definition one character past the
   definition's closing brace (`InsertTextAfter`);
3. `run` inserts a forward declaration (`<prototype>;\n`) at the start of
   the definition (`InsertTextBefore`), after the other two edits.

We embed the handler shallowly.  A matched function definition is a
structured view of the source buffer: the text before the definition, the
return type, the separator between return type and name, the name, the
text between the parentheses of the parameter list, the structural
parameter list, the separator between the closing parenthesis and the
body's opening brace, the body text between its braces, and the text after
the definition.  The handler locates the parameter-list text at
`getLocation() + Name.length()`, i.e. it treats the character right after
the name token as the opening parenthesis, so the model places `(`
immediately after the name; the separator between `)` and `{` is kept
general because the handler computes `getBody()->getLocStart() - 1` and
its behaviour depends on that separator's width.  Source locations are
character offsets into the buffer (the buffer is modelled as `List Char`),
and `getReturnType().getAsString()` is taken to agree with the spelling of
the return type in the buffer.
-/

namespace Memoize

/-- A function parameter as the AST exposes it to the handler: its printed
type and the result of `getNameAsString`, which is the empty string for an
unnamed parameter. -/
structure Param where
  ptype : String
  pname : String
deriving DecidableEq, Repr

/-- A matched C++ function definition, as a structured view of the source
buffer.  The buffer is
`pre ++ returnType ++ sep1 ++ name ++ "(" ++ paramsText ++ ")" ++ sep2 ++
"\x7b" ++ bodyInner ++ "\x7d" ++ post`. -/
structure FunctionDecl where
  pre : String
  returnType : String
  sep1 : String
  name : String
  paramsText : String
  params : List Param
  sep2 : String
  bodyInner : String
  post : String
deriving DecidableEq, Repr

/-- The source buffer that the matched definition lives in, as a character
list (the `SourceManager`'s character data). -/
def buffer (f : FunctionDecl) : List Char :=
  f.pre.data ++ (f.returnType.data ++ (f.sep1.data ++ (f.name.data ++
    ('(' :: (f.paramsText.data ++ (')' :: (f.sep2.data ++
      ('\x7b' :: (f.bodyInner.data ++ ('\x7d' :: f.post.data))))))))))

/-- `Function.getLocStart()`: offset of the start of the definition (the
first character of the return type). -/
def defStart (f : FunctionDecl) : Nat := f.pre.length

/-- `Function.getLocation()`: offset of the name token. -/
def nameLoc (f : FunctionDecl) : Nat :=
  defStart f + f.returnType.length + f.sep1.length

/-- Offset of the opening parenthesis of the parameter list (the character
right after the name token). -/
def parenLoc (f : FunctionDecl) : Nat := nameLoc f + f.name.length

/-- Offset of the closing parenthesis of the parameter list. -/
def closeParenLoc (f : FunctionDecl) : Nat :=
  parenLoc f + 1 + f.paramsText.length

/-- `Function.getBody()->getLocStart()`: offset of the body's opening
brace. -/
def bodyStartLoc (f : FunctionDecl) : Nat :=
  closeParenLoc f + 1 + f.sep2.length

/-- `Function.getLocEnd()`: offset of the definition's last token, the
body's closing brace. -/
def defEndLoc (f : FunctionDecl) : Nat :=
  bodyStartLoc f + 1 + f.bodyInner.length

/-- One text edit submitted to the external source editor
(`clang::Rewriter`).  A `replace` carries the half-open character range
it replaces; inserts carry the character offset they insert at. -/
inductive SourceEdit where
  | replace (rangeStart rangeEnd : Nat) (text : String)
  | insertAfter (offset : Nat) (text : String)
  | insertBefore (offset : Nat) (text : String)
deriving DecidableEq, Repr

/-- Effective character end of the token range passed to
`Rewriter.ReplaceText` by `renameOriginalFunction`: the code passes
`getLocation().getLocWithOffset(OriginalName.length() - 1)` — the last
character of the name token — as the range's end location, and the
rewriter extends a token range through the end of the token at that
location, here a single identifier character. -/
def replaceRangeEnd (f : FunctionDecl) : Nat :=
  (nameLoc f + (f.name.length - 1)) + 1

/-- `MemoizeHandler::renameOriginalFunction`: builds the replace edit over
`{DeclarationBegin, BeforeParameters}` with text
`ReturnType + " " + NewName`, and returns the new (mangled) name.  The
C++ performs the edit as a side effect; the embedding returns the edit
alongside the name. -/
def renameOriginalFunction (f : FunctionDecl) : SourceEdit × String :=
  let OriginalName := f.name
  let NewName := OriginalName ++ "__original__"
  let ReturnType := f.returnType
  let NewDeclaration := ReturnType ++ " " ++ NewName
  (.replace (defStart f) (replaceRangeEnd f) NewDeclaration, NewName)

/-- The loop body of `MemoizeHandler::getParameterNames`: appends each
parameter's name, followed by `", "` whenever the incremented index is
still below `Function.getNumParams()`. -/
def appendNames (n : Nat) : Nat → List Param → String
  | _, [] => ""
  | index, p :: rest =>
      p.pname ++ (if index + 1 < n then ", " else "")
        ++ appendNames n (index + 1) rest

/-- `MemoizeHandler::getParameterNames`: the comma-separated list of the
function's parameter names. -/
def getParameterNames (f : FunctionDecl) : String :=
  appendNames f.params.length 0 f.params

/-- `String.mk` of a sliced character range: the substring of the buffer
between two offsets, as `SourceManager::getCharacterData` exposes it. -/
def charRange (buf : List Char) (a b : Nat) : String :=
  String.mk ((buf.drop a).take (b - a))

/-- `MemoizeHandler::getParameterList`: the raw buffer text from the
character right after the name token (`getLocation() + Name.length()`) up
to one character before the body's opening brace
(`getBody()->getLocStart() - 1`). -/
def getParameterList (f : FunctionDecl) : String :=
  charRange (buffer f) (nameLoc f + f.name.length) (bodyStartLoc f - 1)

/-- `MemoizeHandler::getFunctionPrototype`: return type, a space, the
name, then the extracted parameter-list text. -/
def getFunctionPrototype (f : FunctionDecl) : String :=
  f.returnType ++ " " ++ f.name ++ getParameterList f

/-- `MemoizeHandler::createMemoizedDefinition`: the full text of the new
memoized definition under the original name. -/
def createMemoizedDefinition (f : FunctionDecl)
    (Prototype NewName : String) : String :=
  "\n\n" ++ Prototype
    ++ " \x7b\nstatic const auto proxy = memoize(" ++ NewName
    ++ ");\nreturn proxy(" ++ getParameterNames f ++ ");\n\x7d"

/-- `MemoizeHandler::run`: the sequence of edits the handler submits to
the rewriter for one match, in submission order — the rename (inside
`renameOriginalFunction`), then `InsertTextAfter` at
`getLocEnd().getLocWithOffset(1)` with the memoized definition, then
`InsertTextBefore` at `getLocStart()` with `Prototype + ";\n"`. -/
def run (f : FunctionDecl) : List SourceEdit :=
  let renamed := renameOriginalFunction f
  let NewName := renamed.2
  let Prototype := getFunctionPrototype f
  let NewDefinition := createMemoizedDefinition f Prototype NewName
  let AfterOriginalFunction := defEndLoc f + 1
  [renamed.1,
   .insertAfter AfterOriginalFunction NewDefinition,
   .insertBefore (defStart f) (Prototype ++ ";\n")]

/-- `MemoizeHandler::run`'s entry: `getNodeAs` may in principle yield a
null node; the handler dereferences it and `assert`s it is non-null, so a
null node is a fatal contract violation and rewriting happens only on a
non-null node. -/
def runChecked : Option FunctionDecl → Except String (List SourceEdit)
  | none => .error "matched function reference is null"
  | some f => .ok (run f)

/-- The preconditions the spec places on a valid matched function: the
name is a (non-empty) identifier and every parameter carries a name.  The
presence of a body is structural in `FunctionDecl`. -/
def Valid (f : FunctionDecl) : Prop :=
  0 < f.name.length ∧ ∀ p ∈ f.params, p.pname ≠ ""

instance (f : FunctionDecl) : Decidable (Valid f) := by
  unfold Valid; infer_instance

/-- Rendering described by the spec for the parameter-name forwarding
list: names only, in declared order, comma-space separated, no trailing
separator; the empty list renders as the empty string. -/
def specCommaSeparated : List String → String
  | [] => ""
  | [s] => s
  | s :: s2 :: rest => s ++ ", " ++ specCommaSeparated (s2 :: rest)

/-- Modelled from the spec (sections 6 and 9): the external source editor
owns the buffer and composes the submitted edits against the original
buffer's coordinates, which it keeps consistent across calls — a single
linear merge sorted by anchor.  The composition is specialised to a plan
of the handler's shape, `[replace, insertAfter, insertBefore]` in
submission order: the text of the `insertBefore`, submitted last, is
placed ahead of the replacement text sharing its anchor; the editor only
touches the buffer at the submitted anchors, so the text between the
replace range's end and the `insertAfter` anchor is carried over
verbatim.  A plan whose anchors are not ordered within the buffer is not
composed. -/
def composePlan (buf : List Char) : List SourceEdit → Option (List Char)
  | [.replace a b t1, .insertAfter o2 t2, .insertBefore o3 t3] =>
      if o3 = a ∧ a ≤ b ∧ b ≤ o2 ∧ o2 ≤ buf.length then
        some (buf.take a ++ (t3.data ++ (t1.data ++
          ((buf.drop b).take (o2 - b) ++ (t2.data ++ buf.drop o2)))))
      else none
  | _ => none

/-- The replacement text the handler builds for the rename edit:
the return type, a space, and the mangled name. -/
def renameText (f : FunctionDecl) : String :=
  f.returnType ++ " " ++ (f.name ++ "__original__")

/-- The text of the memoized wrapper definition the handler inserts after
the renamed definition. -/
def wrapperText (f : FunctionDecl) : String :=
  createMemoizedDefinition f (getFunctionPrototype f)
    (f.name ++ "__original__")

/-- The text of the forward declaration the handler inserts at the start
of the definition: the prototype followed by the `;` terminator and a
newline. -/
def declText (f : FunctionDecl) : String :=
  getFunctionPrototype f ++ ";\n"

/-- A concrete valid matched definition,
`int f(int x) \x7b return x; \x7d`, used to instantiate hypotheses. -/
def exf : FunctionDecl :=
  { pre := "", returnType := "int", sep1 := " ", name := "f",
    paramsText := "int x", params := [⟨"int", "x"⟩], sep2 := " ",
    bodyInner := " return x; ", post := "" }

/-- A concrete matched definition written with no character between the
closing parenthesis of the parameter list and the body's opening brace:
`int f(int x)\x7breturn x;\x7d`. -/
def fNoSpace : FunctionDecl :=
  { pre := "", returnType := "int", sep1 := " ", name := "f",
    paramsText := "int x", params := [⟨"int", "x"⟩], sep2 := "",
    bodyInner := "return x;", post := "" }

/-- A concrete matched definition whose second parameter is unnamed:
`int g(int x, int, int z) \x7b return x; \x7d`. -/
def exUnnamed : FunctionDecl :=
  { pre := "", returnType := "int", sep1 := " ", name := "g",
    paramsText := "int x, int, int z",
    params := [⟨"int", "x"⟩, ⟨"int", ""⟩, ⟨"int", "z"⟩], sep2 := " ",
    bodyInner := " return x; ", post := "" }

end Memoize

namespace Memoize

lemma data_length (s : String) : s.data.length = s.length := rfl

lemma appendNames_spec : ∀ (l : List Param) (i n : Nat),
    n = i + l.length →
    appendNames n i l = specCommaSeparated (l.map Param.pname)
  | [], _, _, _ => rfl
  | [p], i, n, h => by
      subst h
      simp [appendNames, specCommaSeparated]
  | p :: q :: rest, i, n, h => by
      subst h
      have hlt : i + 1 < i + (p :: q :: rest).length := by
        simp
      rw [appendNames, if_pos hlt,
        appendNames_spec (q :: rest) (i + 1) _ (by simp; omega)]
      simp [specCommaSeparated, String.append_assoc]

lemma getParameterNames_spec (f : FunctionDecl) :
    getParameterNames f = specCommaSeparated (f.params.map Param.pname) :=
  appendNames_spec f.params 0 f.params.length (Nat.zero_add _).symm

/-- The buffer, grouped so that the text before the opening parenthesis
is the head of the append. -/
lemma buffer_parts (f : FunctionDecl) :
    buffer f =
      (f.pre.data ++ f.returnType.data ++ f.sep1.data ++ f.name.data) ++
        ('(' :: (f.paramsText.data ++ (')' :: (f.sep2.data ++
          ('\x7b' :: (f.bodyInner.data ++ ('\x7d' :: f.post.data))))))) := by
  simp [buffer]

lemma parenLoc_len (f : FunctionDecl) :
    (f.pre.data ++ f.returnType.data ++ f.sep1.data ++ f.name.data).length
      = parenLoc f := by
  simp [parenLoc, nameLoc, defStart, data_length]
  omega

lemma buffer_drop_parenLoc (f : FunctionDecl) :
    (buffer f).drop (parenLoc f) =
      '(' :: (f.paramsText.data ++ (')' :: (f.sep2.data ++
        ('\x7b' :: (f.bodyInner.data ++ ('\x7d' :: f.post.data)))))) := by
  rw [buffer_parts]
  exact List.drop_left' (parenLoc_len f)

lemma replaceRangeEnd_eq (f : FunctionDecl) (h : 0 < f.name.length) :
    replaceRangeEnd f = parenLoc f := by
  unfold replaceRangeEnd parenLoc
  omega

/-- The extracted parameter-list text, when exactly one character
separates the closing parenthesis from the body's opening brace. -/
lemma getParameterList_eq (f : FunctionDecl) (hsep : f.sep2.length = 1) :
    getParameterList f = "(" ++ f.paramsText ++ ")" := by
  unfold getParameterList charRange
  have hdrop : (buffer f).drop (nameLoc f + f.name.length) =
      '(' :: (f.paramsText.data ++ (')' :: (f.sep2.data ++
        ('\x7b' :: (f.bodyInner.data ++ ('\x7d' :: f.post.data)))))) :=
    buffer_drop_parenLoc f
  rw [hdrop]
  have hcount : bodyStartLoc f - 1 - (nameLoc f + f.name.length) =
      f.paramsText.length + 2 := by
    unfold bodyStartLoc closeParenLoc parenLoc
    omega
  rw [hcount]
  have htake : (f.paramsText.data ++ (')' :: (f.sep2.data ++
      ('\x7b' :: (f.bodyInner.data ++ ('\x7d' :: f.post.data)))))).take
        (f.paramsText.length + 1) = f.paramsText.data ++ [')'] := by
    have hsplit : f.paramsText.data ++ (')' :: (f.sep2.data ++
        ('\x7b' :: (f.bodyInner.data ++ ('\x7d' :: f.post.data))))) =
        (f.paramsText.data ++ [')']) ++ (f.sep2.data ++
          ('\x7b' :: (f.bodyInner.data ++ ('\x7d' :: f.post.data)))) := by
      simp
    rw [hsplit]
    exact List.take_left' (by simp [data_length])
  rw [List.take_succ_cons, htake]
  apply String.ext
  simp [String.data_append]

/-- The edits of one run, written out. -/
lemma run_eq (f : FunctionDecl) :
    run f =
      [.replace (defStart f) (replaceRangeEnd f) (renameText f),
       .insertAfter (defEndLoc f + 1) (wrapperText f),
       .insertBefore (defStart f) (declText f)] := rfl

lemma buffer_length (f : FunctionDecl) :
    (buffer f).length = defEndLoc f + 1 + f.post.length := by
  simp [buffer, defEndLoc, bodyStartLoc, closeParenLoc, parenLoc, nameLoc,
    defStart, data_length]
  omega

lemma buffer_take_defStart (f : FunctionDecl) :
    (buffer f).take (defStart f) = f.pre.data := by
  unfold buffer
  exact List.take_left' (data_length f.pre)

/-- The buffer, grouped so that the whole definition text is the head of
the append. -/
lemma buffer_parts_defEnd (f : FunctionDecl) :
    buffer f =
      (f.pre.data ++ (f.returnType.data ++ (f.sep1.data ++ (f.name.data ++
        ('(' :: (f.paramsText.data ++ (')' :: (f.sep2.data ++
          ('\x7b' :: (f.bodyInner.data ++ ['\x7d']))))))))))
        ++ f.post.data := by
  simp [buffer]

lemma defEndSucc_len (f : FunctionDecl) :
    (f.pre.data ++ (f.returnType.data ++ (f.sep1.data ++ (f.name.data ++
      ('(' :: (f.paramsText.data ++ (')' :: (f.sep2.data ++
        ('\x7b' :: (f.bodyInner.data ++ ['\x7d'])))))))))).length
      = defEndLoc f + 1 := by
  simp [defEndLoc, bodyStartLoc, closeParenLoc, parenLoc, nameLoc,
    defStart, data_length]
  omega

lemma buffer_drop_defEndSucc (f : FunctionDecl) :
    (buffer f).drop (defEndLoc f + 1) = f.post.data := by
  rw [buffer_parts_defEnd]
  exact List.drop_left' (defEndSucc_len f)

lemma buffer_drop_defEndLoc (f : FunctionDecl) :
    (buffer f).drop (defEndLoc f) = '\x7d' :: f.post.data := by
  have hsplit : buffer f =
      (f.pre.data ++ (f.returnType.data ++ (f.sep1.data ++ (f.name.data ++
        ('(' :: (f.paramsText.data ++ (')' :: (f.sep2.data ++
          ('\x7b' :: f.bodyInner.data))))))))) ++ ('\x7d' :: f.post.data) := by
    simp [buffer]
  rw [hsplit]
  refine List.drop_left' ?_
  simp [defEndLoc, bodyStartLoc, closeParenLoc, parenLoc, nameLoc,
    defStart, data_length]
  omega

/-- The slice of the buffer the plan carries over verbatim between the
replace range's end and the `insertAfter` anchor: the parameter list, the
separator, and the whole function body. -/
lemma buffer_middle_slice (f : FunctionDecl) :
    ((buffer f).drop (parenLoc f)).take (defEndLoc f + 1 - parenLoc f) =
      '(' :: (f.paramsText.data ++ (')' :: (f.sep2.data ++
        ('\x7b' :: (f.bodyInner.data ++ ['\x7d']))))) := by
  rw [buffer_drop_parenLoc]
  have hlen : ('(' :: (f.paramsText.data ++ (')' :: (f.sep2.data ++
      ('\x7b' :: (f.bodyInner.data ++ ['\x7d'])))))).length
      = defEndLoc f + 1 - parenLoc f := by
    simp [defEndLoc, bodyStartLoc, closeParenLoc, parenLoc, data_length]
    omega
  have hsplit : '(' :: (f.paramsText.data ++ (')' :: (f.sep2.data ++
      ('\x7b' :: (f.bodyInner.data ++ ('\x7d' :: f.post.data)))))) =
      ('(' :: (f.paramsText.data ++ (')' :: (f.sep2.data ++
        ('\x7b' :: (f.bodyInner.data ++ ['\x7d'])))))) ++ f.post.data := by
    simp
  rw [hsplit]
  exact List.take_left' hlen

/-- The buffer the editor produces from one run's plan: the text before
the definition, the forward declaration, the renamed head, the parameter
list and untouched body, the wrapper definition, and the text after the
definition. -/
lemma composePlan_run (f : FunctionDecl) (h : 0 < f.name.length) :
    composePlan (buffer f) (run f) =
      some (f.pre.data ++ ((declText f).data ++ ((renameText f).data ++
        (('(' :: (f.paramsText.data ++ (')' :: (f.sep2.data ++
          ('\x7b' :: (f.bodyInner.data ++ ['\x7d'])))))) ++
            ((wrapperText f).data ++ f.post.data))))) := by
  rw [run_eq, replaceRangeEnd_eq f h]
  have hcond : defStart f = defStart f ∧ defStart f ≤ parenLoc f ∧
      parenLoc f ≤ defEndLoc f + 1 ∧
      defEndLoc f + 1 ≤ (buffer f).length := by
    refine ⟨rfl, ?_, ?_, ?_⟩
    · unfold parenLoc nameLoc
      omega
    · unfold defEndLoc bodyStartLoc closeParenLoc
      omega
    · rw [buffer_length]
      omega
  simp only [composePlan]
  rw [buffer_take_defStart, buffer_middle_slice, buffer_drop_defEndSucc]
  exact if_pos ⟨trivial, hcond.2⟩

end Memoize

namespace Memoize

/-- Claim C1: for every valid matched function (all parameters named,
body present), one invocation of the handler's run produces and submits
exactly three edits — one replace, one insertAfter, one insertBefore — in
exactly that fixed order; `run` is a total function into the full
three-edit list, so no partial edit sequence is ever submitted. -/
theorem run_submits_three_edits_in_fixed_order (f : FunctionDecl)
    (h : Valid f) :
    (run f).length = 3 ∧
    (∃ a b t, (run f)[0]? = some (.replace a b t)) ∧
    (∃ o t, (run f)[1]? = some (.insertAfter o t)) ∧
    (∃ o t, (run f)[2]? = some (.insertBefore o t)) :=
  ⟨rfl, ⟨_, _, _, rfl⟩, ⟨_, _, rfl⟩, ⟨_, _, rfl⟩⟩

theorem run_submits_three_edits_witness :
    Valid exf ∧
    ((run exf).length = 3 ∧
     (∃ a b t, (run exf)[0]? = some (.replace a b t)) ∧
     (∃ o t, (run exf)[1]? = some (.insertAfter o t)) ∧
     (∃ o t, (run exf)[2]? = some (.insertBefore o t))) :=
  ⟨by decide, run_submits_three_edits_in_fixed_order exf (by decide)⟩

/-- Claim C2 counterexample: at the concrete match
`int f(int x) \x7b return x; \x7d` the insertBefore edit's target offset
is 0 (the definition start), and the replace edit's span also starts at
offset 0, so the insertBefore offset is not strictly less than every
offset referenced by the replace edit. -/
theorem insertBefore_offset_not_strictly_below_replace_start :
    (run exf)[0]? = some (.replace 0 5 "int f__original__") ∧
    (run exf)[2]? = some (.insertBefore 0 "int f(int x);\n") ∧
    ¬ (0 : Nat) < 0 := by
  refine ⟨by decide, by decide, by decide⟩

/-- Claim C2 (amended): for every valid match the insertBefore edit's
target offset is the definition start — equal to the replace edit's start
offset, and strictly less than the replace edit's end offset and the
insertAfter edit's offset — and the insertBefore edit is submitted last,
after the replace and the insertAfter. -/
theorem insertBefore_offset_le_and_submitted_last (f : FunctionDecl)
    (h : Valid f) :
    ∃ t1 t2 t3,
      run f = [.replace (defStart f) (parenLoc f) t1,
               .insertAfter (defEndLoc f + 1) t2,
               .insertBefore (defStart f) t3] ∧
      defStart f ≤ defStart f ∧
      defStart f < parenLoc f ∧
      defStart f < defEndLoc f + 1 := by
  obtain ⟨hn, -⟩ := h
  refine ⟨renameText f, wrapperText f, declText f, ?_, le_refl _, ?_, ?_⟩
  · rw [run_eq, replaceRangeEnd_eq f hn]
  · unfold parenLoc nameLoc defStart
    omega
  · unfold defEndLoc bodyStartLoc closeParenLoc parenLoc nameLoc defStart
    omega

theorem insertBefore_offset_le_witness :
    Valid exf ∧
    ∃ t1 t2 t3,
      run exf = [.replace (defStart exf) (parenLoc exf) t1,
                 .insertAfter (defEndLoc exf + 1) t2,
                 .insertBefore (defStart exf) t3] ∧
      defStart exf ≤ defStart exf ∧
      defStart exf < parenLoc exf ∧
      defStart exf < defEndLoc exf + 1 :=
  ⟨by decide, insertBefore_offset_le_and_submitted_last exf (by decide)⟩

/-- Claim C3: the rename edit is a Replace whose span runs from the start
of the definition (the start of the return type) to just before the
parameter list's opening parenthesis — the buffer's character at the
span's end offset is that parenthesis — and whose replacement text is the
return type followed by a space and the mangled name, the mangled name
being the original name with the suffix "__original__" appended. -/
theorem rename_edit_spec (f : FunctionDecl) (h : 0 < f.name.length) :
    (run f)[0]? = some (.replace (defStart f) (parenLoc f)
        (f.returnType ++ " " ++ (f.name ++ "__original__"))) ∧
    (∃ rest, (buffer f).drop (parenLoc f) = '(' :: rest) := by
  constructor
  · have := replaceRangeEnd_eq f h
    simp [run, renameOriginalFunction, this]
  · exact ⟨_, buffer_drop_parenLoc f⟩

theorem rename_edit_spec_witness :
    0 < exf.name.length ∧
    ((run exf)[0]? = some (.replace (defStart exf) (parenLoc exf)
        (exf.returnType ++ " " ++ (exf.name ++ "__original__"))) ∧
     (∃ rest, (buffer exf).drop (parenLoc exf) = '(' :: rest)) :=
  ⟨by decide, rename_edit_spec exf (by decide)⟩

/-- Claim C4 (code bug): at the failing input `int f(int x)\x7breturn
x;\x7d` — a definition written with no character between the parameter
list's closing parenthesis and the body's opening brace — the computed
prototype is "int f(int x": the closing parenthesis is excluded, because
`getParameterList` cuts the text one character before the body's opening
brace, contradicting the claim and the handler's own documentation that
the prototype runs through the closing parenthesis.  With the customary
single-character separator the prototype is the claimed "int f(int x)". -/
theorem prototype_cut_short_without_separator :
    getFunctionPrototype fNoSpace = "int f(int x" ∧
    getFunctionPrototype fNoSpace ≠ "int f(int x)" ∧
    getFunctionPrototype exf = "int f(int x)" :=
  ⟨by decide, by decide, by decide⟩

/-- Claim C5: the wrapper definition is inserted one character past the
renamed definition's closing brace — the insertAfter anchor is one past
the offset holding the closing brace — reuses the original unmangled name
and full prototype, declares a single statically-initialized cache built
by applying the memoization primitive to the mangled name, and returns
the cache applied to the forwarded parameter names; for a zero-parameter
function the forwarded list is empty, so the call-through is `()`. -/
theorem wrapper_edit_spec (f : FunctionDecl) (h : Valid f) :
    (run f)[1]? = some (.insertAfter (defEndLoc f + 1)
      ("\n\n" ++ getFunctionPrototype f
        ++ " \x7b\nstatic const auto proxy = memoize("
        ++ (f.name ++ "__original__")
        ++ ");\nreturn proxy(" ++ getParameterNames f ++ ");\n\x7d")) ∧
    (∃ rest, (buffer f).drop (defEndLoc f) = '\x7d' :: rest) ∧
    (f.params = [] → getParameterNames f = "") := by
  refine ⟨rfl, ⟨_, buffer_drop_defEndLoc f⟩, fun hp => ?_⟩
  simp [getParameterNames, hp, appendNames]

theorem wrapper_edit_spec_witness :
    Valid exf ∧
    (((run exf)[1]? = some (.insertAfter (defEndLoc exf + 1)
      ("\n\n" ++ getFunctionPrototype exf
        ++ " \x7b\nstatic const auto proxy = memoize("
        ++ (exf.name ++ "__original__")
        ++ ");\nreturn proxy(" ++ getParameterNames exf ++ ");\n\x7d"))) ∧
     (∃ rest, (buffer exf).drop (defEndLoc exf) = '\x7d' :: rest) ∧
     (exf.params = [] → getParameterNames exf = "")) :=
  ⟨by decide, wrapper_edit_spec exf (by decide)⟩

/-- Claim C6: for parameters n1..nk the forwarding list is exactly
"n1, n2, ..." — the names only, in declared order, comma-space separated
with no trailing separator — and the empty string for an empty parameter
list, as `specCommaSeparated` renders by construction. -/
theorem parameter_names_rendering (f : FunctionDecl) :
    getParameterNames f = specCommaSeparated (f.params.map Param.pname) :=
  getParameterNames_spec f

/-- Claim C7: the forward declaration inserted at the very start of the
original definition is the prototype under the original, unmangled name
followed by the terminator ";\n", and this insertBefore edit is issued
last, after the replace edit (position 0) and the insertAfter edit
(position 1) of the three-edit plan. -/
theorem forward_declaration_edit_spec (f : FunctionDecl) (h : Valid f) :
    (run f)[2]? = some (.insertBefore (defStart f)
      (f.returnType ++ " " ++ f.name ++ getParameterList f ++ ";\n")) ∧
    (run f).length = 3 ∧
    (∃ a b t, (run f)[0]? = some (.replace a b t)) ∧
    (∃ o t, (run f)[1]? = some (.insertAfter o t)) :=
  ⟨rfl, rfl, ⟨_, _, _, rfl⟩, ⟨_, _, rfl⟩⟩

theorem forward_declaration_edit_witness :
    Valid exf ∧
    (((run exf)[2]? = some (.insertBefore (defStart exf)
      (exf.returnType ++ " " ++ exf.name ++ getParameterList exf
        ++ ";\n"))) ∧
     (run exf).length = 3 ∧
     (∃ a b t, (run exf)[0]? = some (.replace a b t)) ∧
     (∃ o t, (run exf)[1]? = some (.insertAfter o t))) :=
  ⟨by decide, forward_declaration_edit_spec exf (by decide)⟩

/-- Claim C8: no edit of the plan replaces or inserts text inside the
function body: the replace span ends at the opening parenthesis, before
the parameter list; the insertAfter anchor is strictly past the closing
brace; the insertBefore anchor is the definition's start; and the buffer
obtained by composing the plan still contains the original body text
verbatim. -/
theorem plan_preserves_body_text (f : FunctionDecl) (h : Valid f) :
    (∃ t1 t2 t3, run f =
      [.replace (defStart f) (parenLoc f) t1,
       .insertAfter (defEndLoc f + 1) t2,
       .insertBefore (defStart f) t3]) ∧
    parenLoc f ≤ bodyStartLoc f ∧
    defEndLoc f < defEndLoc f + 1 ∧
    (∃ u v, composePlan (buffer f) (run f) =
      some (u ++ (('\x7b' :: (f.bodyInner.data ++ ['\x7d'])) ++ v))) := by
  obtain ⟨hn, -⟩ := h
  refine ⟨⟨renameText f, wrapperText f, declText f, ?_⟩, ?_,
    Nat.lt_succ_self _, ?_⟩
  · rw [run_eq, replaceRangeEnd_eq f hn]
  · unfold bodyStartLoc closeParenLoc
    omega
  · refine ⟨f.pre.data ++ ((declText f).data ++ ((renameText f).data ++
      ('(' :: (f.paramsText.data ++ (')' :: f.sep2.data))))),
      (wrapperText f).data ++ f.post.data, ?_⟩
    rw [composePlan_run f hn]
    congr 1
    simp

theorem plan_preserves_body_witness :
    Valid exf ∧
    ((∃ t1 t2 t3, run exf =
      [.replace (defStart exf) (parenLoc exf) t1,
       .insertAfter (defEndLoc exf + 1) t2,
       .insertBefore (defStart exf) t3]) ∧
     parenLoc exf ≤ bodyStartLoc exf ∧
     defEndLoc exf < defEndLoc exf + 1 ∧
     (∃ u v, composePlan (buffer exf) (run exf) =
       some (u ++ (('\x7b' :: (exf.bodyInner.data ++ ['\x7d'])) ++ v)))) :=
  ⟨by decide, plan_preserves_body_text exf (by decide)⟩

/-- Claim C9: under the caller-guaranteed precondition that the matched
structural reference is non-null, the null-detecting branch of the
handler's entry is unreachable and rewriting proceeds, yielding the plan;
the null case is the sole fatal, non-recoverable outcome of
`runChecked`. -/
theorem nonnull_reference_rewrites (o : Option FunctionDecl)
    (h : o ≠ none) :
    ∃ f, o = some f ∧ runChecked o = .ok (run f) := by
  cases o with
  | none => exact absurd rfl h
  | some f => exact ⟨f, rfl, rfl⟩

theorem nonnull_reference_rewrites_witness :
    (some exf ≠ none) ∧
    ∃ f, some exf = some f ∧ runChecked (some exf) = .ok (run f) :=
  ⟨by simp, nonnull_reference_rewrites (some exf) (by simp)⟩

/-- Claim C10: for a function containing a parameter with no name, the
parameter-name collection still returns normally and contributes an empty
string for that parameter — a function with parameters named x, nothing,
z forwards as "x, , z" — with no validation, error, or failure raised at
the handler's interface. -/
theorem unnamed_parameter_contributes_empty_name (f : FunctionDecl)
    (t1 t2 t3 : String)
    (h : f.params = [⟨t1, "x"⟩, ⟨t2, ""⟩, ⟨t3, "z"⟩]) :
    getParameterNames f = "x, , z" := by
  rw [getParameterNames_spec, h]
  show specCommaSeparated ["x", "", "z"] = "x, , z"
  decide

theorem unnamed_parameter_witness :
    exUnnamed.params = [⟨"int", "x"⟩, ⟨"int", ""⟩, ⟨"int", "z"⟩] ∧
    getParameterNames exUnnamed = "x, , z" :=
  ⟨rfl, unnamed_parameter_contributes_empty_name exUnnamed
    "int" "int" "int" rfl⟩

end Memoize
